import Mathlib

/- Shallow embedding of the transcript scripts of this repository:
   src/scripts/python/transcript.py and src/scripts/python/transcript_tor.py.
   Python floats are modelled as rationals, Python dicts as structures,
   raised exceptions as Except, and the CLI / retry side effects as explicit
   traces (rotation and provider-call counters). -/

namespace Transcript

/-- A timed text unit: one caption segment dict with keys text, start, duration. -/
structure Segment where
  text : String
  start : ℚ
  duration : ℚ
  deriving DecidableEq, Repr, Inhabited

/-- A pause group as emitted by group_by_pauses: dict with keys start, timestamp, text. -/
structure Group where
  start : ℚ
  timestamp : String
  text : String
  deriving DecidableEq, Repr, Inhabited

/-- Python float floor division a // b, modelled on rationals (Rat.floor is the
computable floor of Batteries). -/
def pyFloorDiv (a b : ℚ) : ℚ := ((Rat.floor (a / b) : Int) : ℚ)

/-- Python float modulo a % b, modelled on rationals: a % b = a - b * (a // b). -/
def pyMod (a b : ℚ) : ℚ := a - b * ((Rat.floor (a / b) : Int) : ℚ)

/-- Python int() on a float value: truncation toward zero. -/
def pyInt (q : ℚ) : Int := q.num.tdiv (q.den : Int)

/-- Python format spec 02d: zero-pad to width two. -/
def pad2 (n : Int) : String := if 0 ≤ n ∧ n < 10 then "0" ++ toString n else toString n

/-- Embeds format_timestamp (identical in transcript.py lines 99-107 and
transcript_tor.py lines 83-91). -/
def format_timestamp (seconds : ℚ) : String :=
  let hours : Int := pyInt (pyFloorDiv seconds 3600)
  let minutes : Int := pyInt (pyFloorDiv (pyMod seconds 3600) 60)
  let secs : Int := pyInt (pyMod seconds 60)
  if 0 < hours then toString hours ++ ":" ++ pad2 minutes ++ ":" ++ pad2 secs
  else toString minutes ++ ":" ++ pad2 secs

/-- The timestamp rendering rule as the spec words it (section 4.2): hours is the
floor of s / 3600, minutes the floor of (s mod 3600) / 60, secs the floor of
s mod 60, where mod is the mathematical remainder a - b * floor (a / b). -/
def specMod (a b : ℚ) : ℚ := a - b * ((⌊a / b⌋ : Int) : ℚ)

/-- Spec-side rendering (section 4.2): H:MM:SS with unpadded hours when hours > 0,
else M:SS, minutes and seconds zero-padded to two digits. -/
def format_timestamp_spec (s : ℚ) : String :=
  let hours : Int := ⌊s / 3600⌋
  let minutes : Int := ⌊specMod s 3600 / 60⌋
  let secs : Int := ⌊specMod s 60⌋
  if 0 < hours then toString hours ++ ":" ++ pad2 minutes ++ ":" ++ pad2 secs
  else toString minutes ++ ":" ++ pad2 secs

/-- Models Python " ".join(texts). -/
def joinSpace : List String → String
  | [] => ""
  | [t] => t
  | t :: u :: rest => t ++ " " ++ joinSpace (u :: rest)

/-- Closing the open accumulator group: join texts with a space and stamp the
timestamp (transcript.py lines 133-136 and 147-150). -/
def closeGroup (gStart : ℚ) (texts : List String) : Group :=
  { start := gStart, timestamp := format_timestamp gStart, text := joinSpace texts }

/-- The loop body of group_by_pauses: prev is segments at i-1, gStart and texts the
open accumulator, the last argument the segments not yet visited. -/
def groupLoop (threshold : ℚ) : Segment → ℚ → List String → List Segment → List Group
  | _, gStart, texts, [] => [closeGroup gStart texts]
  | prev, gStart, texts, curr :: rest =>
    if curr.start - (prev.start + prev.duration) ≥ threshold then
      closeGroup gStart texts :: groupLoop threshold curr curr.start [curr.text] rest
    else
      groupLoop threshold curr gStart (texts ++ [curr.text]) rest

/-- Embeds group_by_pauses (identical in transcript.py lines 110-153 and
transcript_tor.py lines 93-130); the Python default threshold is 2.0. -/
def group_by_pauses (segments : List Segment) (pause_threshold : ℚ) : List Group :=
  match segments with
  | [] => []
  | s :: rest => groupLoop pause_threshold s s.start [s.text] rest

/-- The member decomposition induced by the same splitting decisions: the list of
contiguous blocks of input segments, one block per emitted group. -/
def blockLoop (threshold : ℚ) : Segment → List Segment → List Segment → List (List Segment)
  | _, acc, [] => [acc]
  | prev, acc, curr :: rest =>
    if curr.start - (prev.start + prev.duration) ≥ threshold then
      acc :: blockLoop threshold curr [curr] rest
    else
      blockLoop threshold curr (acc ++ [curr]) rest

/-- The blocks of consecutive segments whose gaps stay below the threshold. -/
def pauseBlocks (segments : List Segment) (threshold : ℚ) : List (List Segment) :=
  match segments with
  | [] => []
  | s :: rest => blockLoop threshold s [s] rest

/-- The group a member block gives rise to: start and timestamp from the first
member, text the space-joined member texts. -/
def mkGroup (b : List Segment) : Group :=
  { start := b.headI.start, timestamp := format_timestamp b.headI.start,
    text := joinSpace (b.map Segment.text) }

/-- Absorbing a segment at the front of the first group of a grouping: the merged
group starts at the absorbed segment and prepends its text. -/
def mergeFirst (a : Segment) : List Group → List Group
  | [] => []
  | g :: gs =>
    { start := a.start, timestamp := format_timestamp a.start,
      text := a.text ++ " " ++ g.text } :: gs

/-- Boolean prefix test on character lists. -/
def listPrefixOf : List Char → List Char → Bool
  | [], _ => true
  | _ :: _, [] => false
  | a :: as, b :: bs => a == b && listPrefixOf as bs

/-- Boolean substring test on character lists, models the Python in operator. -/
def listInfixOf (needle : List Char) : List Char → Bool
  | [] => listPrefixOf needle []
  | c :: rest => listPrefixOf needle (c :: rest) || listInfixOf needle rest

/-- ASCII lowercasing, models str.lower on the ASCII fragment that the fixed
rate-limit markers live in. -/
def lowerAscii (s : String) : String := String.mk (s.data.map Char.toLower)

/-- The rate-limit signature test of fetch_transcript_via_tor line 71:
"429" in msg or "blocked" in msg.lower() or "could not retrieve" in msg.lower(). -/
def isRateLimited (msg : String) : Bool :=
  listInfixOf "429".data msg.data ||
  listInfixOf "blocked".data (lowerAscii msg).data ||
  listInfixOf "could not retrieve".data (lowerAscii msg).data

/-- The JSON record both scripts emit, one optional field per possible dict key. -/
structure ResultRecord where
  videoId : String
  language : Option String
  segments : Option (List Segment)
  groupedSegments : Option (List Group)
  fullText : Option String
  error : Option String
  deriving DecidableEq, Repr

/-- The success record of fetch_transcript_via_tor lines 58-67. -/
def successRecord (vid : String) (segs : List Segment) : ResultRecord :=
  { videoId := vid, language := some "en", segments := some segs,
    groupedSegments := some (group_by_pauses segs 2),
    fullText := some (joinSpace (segs.map Segment.text)), error := none }

/-- The failure record of fetch_transcript_via_tor lines 79 and 81. -/
def failureRecord (vid : String) (msg : String) : ResultRecord :=
  { videoId := vid, language := none, segments := none, groupedSegments := none,
    fullText := none, error := some msg }

/-- One run of the retrieval loop: the returned record together with how many
identity-rotation requests were issued and how many provider calls were made. -/
structure FetchTrace where
  record : ResultRecord
  rotations : Nat
  calls : Nat
  deriving DecidableEq, Repr

/-- The retry loop of fetch_transcript_via_tor lines 38-81. The provider maps the
0-based attempt index to the outcome of api.fetch; fuel counts the remaining
iterations of range(max_retries); attempt and rot carry the loop index and the
rotation count. The fuel-0 case is the fall-through return of line 81. -/
def fetchGo (vid : String) (provider : Nat → Except String (List Segment))
    (maxRetries : Nat) : Nat → Nat → Nat → FetchTrace
  | 0, attempt, rot =>
    { record := failureRecord vid "All retries failed", rotations := rot, calls := attempt }
  | fuel + 1, attempt, rot =>
    match provider attempt with
    | Except.ok segs =>
      { record := successRecord vid segs, rotations := rot, calls := attempt + 1 }
    | Except.error msg =>
      if isRateLimited msg = true ∧ attempt < maxRetries - 1 then
        fetchGo vid provider maxRetries fuel (attempt + 1) (rot + 1)
      else
        { record := failureRecord vid msg, rotations := rot, calls := attempt + 1 }

/-- Embeds fetch_transcript_via_tor lines 35-81; the Python default budget is 3. -/
def fetch_transcript_via_tor (vid : String)
    (provider : Nat → Except String (List Segment)) (max_retries : Nat) : FetchTrace :=
  fetchGo vid provider max_retries max_retries 0 0

/-- The character class [a-zA-Z0-9_-] of the video-id regexes. -/
def isIdChar (c : Char) : Bool :=
  ('a' ≤ c && c ≤ 'z') || ('A' ≤ c && c ≤ 'Z') || ('0' ≤ c && c ≤ '9') ||
  c == '_' || c == '-'

/-- Python re.match of the anchored pattern [a-zA-Z0-9_-] repeated 11 times between
the start anchor and the dollar anchor: the dollar anchor of Python re accepts the
end of the string and also the position just before one final newline. -/
def matchCanonical (s : List Char) : Bool :=
  (s.length == 11 && s.all isIdChar) ||
  (s.length == 12 && (s.take 11).all isIdChar && s.getLast? == some '\n')

/-- The capture group of the url patterns: exactly 11 characters of the class
right after the marker. -/
def takeCapture (cs : List Char) : Option (List Char) :=
  let g := cs.take 11
  if g.length == 11 && g.all isIdChar then some g else none

/-- At one start position, try the alternative markers in pattern order; a marker
whose capture fails backtracks to the next alternative. -/
def tryAltsAt (alts : List (List Char)) (cs : List Char) : Option (List Char) :=
  match alts with
  | [] => none
  | m :: rest =>
    match (if listPrefixOf m cs then takeCapture (cs.drop m.length) else none) with
    | some g => some g
    | none => tryAltsAt rest cs

/-- Python re.search: scan start positions left to right, at each position the
alternatives in order, and return the first capture. -/
def searchAlts (alts : List (List Char)) : List Char → Option (List Char)
  | [] => none
  | c :: rest =>
    match tryAltsAt alts (c :: rest) with
    | some g => some g
    | none => searchAlts alts rest

/-- The alternatives of the first url pattern of transcript.py line 27. -/
def pat1 : List (List Char) := ["v=".data, "/v/".data, "youtu.be/".data]

/-- The embed pattern of transcript.py line 28. -/
def pat2 : List (List Char) := ["embed/".data]

/-- The shorts pattern of transcript.py line 29. -/
def pat3 : List (List Char) := ["shorts/".data]

/-- Embeds extract_video_id of transcript.py lines 19-37: pass the input through
when the anchored canonical pattern matches, otherwise search the three url
patterns in order, otherwise raise ValueError carrying the input. -/
def extract_video_id (s : List Char) : Except (List Char) (List Char) :=
  if matchCanonical s then Except.ok s
  else
    match searchAlts pat1 s with
    | some g => Except.ok g
    | none =>
      match searchAlts pat2 s with
      | some g => Except.ok g
      | none =>
        match searchAlts pat3 s with
        | some g => Except.ok g
        | none => Except.error s

/-- What get_transcript of transcript.py lines 40-96 hands back: it catches every
exception, so it either delivers the fetched segments or an error message. -/
inductive GetOutcome where
  | ok (segments : List Segment)
  | err (msg : String)
  deriving DecidableEq, Repr

/-- The record get_transcript builds from its outcome (lines 78-96): success has
videoId, language, segments, fullText; failure has videoId and error only. -/
def getRecord (vid : String) : GetOutcome → ResultRecord
  | GetOutcome.ok segs =>
    { videoId := vid, language := some "en", segments := some segs,
      groupedSegments := none,
      fullText := some (joinSpace (segs.map Segment.text)), error := none }
  | GetOutcome.err m => failureRecord vid m

/-- The JSON document main prints to stdout. -/
inductive MainOutput where
  | usageError
  | invalidRef (original : List Char)
  | result (r : ResultRecord)
  deriving DecidableEq, Repr

/-- Embeds main of transcript.py lines 156-180 as exit code and printed document:
missing argument prints the usage error and exits 1; a ValueError from
extract_video_id is caught, prints the error payload and exits 1; otherwise the
transcript record is printed (with grouped_segments attached when the flag is
present and the record has no error key) and the interpreter exits 0. -/
def pymain (argv : List String) (oracle : String → GetOutcome) : Nat × MainOutput :=
  if argv.length < 2 then (1, MainOutput.usageError)
  else
    match extract_video_id (argv.getD 1 "").data with
    | Except.error e => (1, MainOutput.invalidRef e)
    | Except.ok vid =>
      let result := getRecord (String.mk vid) (oracle (String.mk vid))
      let result2 :=
        if result.error = none ∧ argv.contains "--grouped" then
          { result with groupedSegments := some (group_by_pauses (result.segments.getD []) 2) }
        else result
      (0, MainOutput.result result2)

/-- The success shape of claim C4: no error key, payload keys present. -/
def successShape (r : ResultRecord) : Prop :=
  r.error = none ∧ r.segments ≠ none ∧ r.groupedSegments ≠ none ∧
  r.fullText ≠ none ∧ r.language ≠ none

/-- The error shape of claim C4: error key present, no payload keys. -/
def errorShape (r : ResultRecord) : Prop :=
  r.error ≠ none ∧ r.segments = none ∧ r.groupedSegments = none ∧
  r.fullText = none ∧ r.language = none

/-- Exactly one of the two record shapes holds: never both, never neither. -/
def exactlyOneShape (r : ResultRecord) : Prop :=
  (successShape r ∧ ¬ errorShape r) ∨ (errorShape r ∧ ¬ successShape r)

/-- The shape claim C7 makes for extract_video_id results: a returned id has
exactly 11 characters of the class, a failure carries the original input. -/
def idShapeClaimed (s : List Char) : Except (List Char) (List Char) → Prop
  | Except.ok r => r.length = 11 ∧ r.all isIdChar = true
  | Except.error e => e = s

/-- The amended shape: as claimed, except that the pass-through case can also
return a 12-character input that is a canonical id followed by a final newline. -/
def idShapeAmended (s : List Char) : Except (List Char) (List Char) → Prop
  | Except.ok r =>
    (r.length = 11 ∧ r.all isIdChar = true) ∨
    (r = s ∧ r.length = 12 ∧ (r.take 11).all isIdChar = true ∧ r.getLast? = some '\n')
  | Except.error e => e = s

/-- The computable floor of Batteries agrees with the mathematical floor. -/
theorem ratFloor_eq (q : ℚ) : (Rat.floor q : Int) = ⌊q⌋ :=
  (Rat.floor_def' q).trans Rat.floor_def.symm

/-- Truncation toward zero is the identity on integer values. -/
theorem pyInt_intCast (n : Int) : pyInt ((n : Int) : ℚ) = n := by
  simp [pyInt, Rat.num_intCast, Rat.den_intCast, Int.tdiv_one]

/-- On non-negative values, truncation toward zero agrees with the floor. -/
theorem pyInt_eq_floor (q : ℚ) (h : 0 ≤ q) : pyInt q = ⌊q⌋ := by
  unfold pyInt
  rw [Rat.floor_def]
  exact Int.tdiv_eq_ediv (Rat.num_nonneg.mpr h) (Int.natCast_nonneg q.den)

/-- Python floor division agrees with the mathematical floor of the quotient. -/
theorem pyFloorDiv_eq (a b : ℚ) : pyFloorDiv a b = ((⌊a / b⌋ : Int) : ℚ) := by
  rw [pyFloorDiv, ratFloor_eq]

/-- Python modulo agrees with the mathematical remainder of the spec. -/
theorem pyMod_eq (a b : ℚ) : pyMod a b = specMod a b := by
  rw [pyMod, specMod, ratFloor_eq]

/-- The mathematical remainder is non-negative for a positive divisor. -/
theorem specMod_nonneg (a b : ℚ) (hb : 0 < b) : 0 ≤ specMod a b := by
  rw [specMod]
  have h1 : ((⌊a / b⌋ : Int) : ℚ) ≤ a / b := Int.floor_le _
  have h2 : b * ((⌊a / b⌋ : Int) : ℚ) ≤ b * (a / b) := mul_le_mul_of_nonneg_left h1 hb.le
  have h3 : b * (a / b) = a := by field_simp
  linarith

/-- The code timestamp renderer agrees with the spec renderer on every rational. -/
theorem format_timestamp_eq_spec (s : ℚ) : format_timestamp s = format_timestamp_spec s := by
  have hh : pyInt (pyFloorDiv s 3600) = ⌊s / 3600⌋ := by rw [pyFloorDiv_eq, pyInt_intCast]
  have hm : pyInt (pyFloorDiv (pyMod s 3600) 60) = ⌊specMod s 3600 / 60⌋ := by
    rw [pyMod_eq, pyFloorDiv_eq, pyInt_intCast]
  have hs : pyInt (pyMod s 60) = ⌊specMod s 60⌋ := by
    rw [pyMod_eq]
    exact pyInt_eq_floor _ (specMod_nonneg s 60 (by norm_num))
  simp only [format_timestamp, format_timestamp_spec, hh, hm, hs]

/-- C8: for every non-negative number of seconds, format_timestamp computes hours,
minutes and seconds by the floor rule of the spec (truncation toward zero coincides
with the floor on these non-negative values) and renders H:MM:SS with unpadded
hours and zero-padded minutes and seconds when hours are positive, else M:SS; in
particular 65 seconds render as 1:05 and 3725 seconds as 1:02:05. -/
theorem format_timestamp_c8 :
    (∀ s : ℚ, 0 ≤ s → format_timestamp s = format_timestamp_spec s) ∧
    format_timestamp 65 = "1:05" ∧ format_timestamp 3725 = "1:02:05" := by
  refine ⟨fun s _ => format_timestamp_eq_spec s, ?_, ?_⟩
  · rw [format_timestamp_eq_spec]
    simp only [format_timestamp_spec, specMod]
    norm_num
    decide
  · rw [format_timestamp_eq_spec]
    simp only [format_timestamp_spec, specMod]
    norm_num
    decide

/-- Witness for C8 at 65 seconds. -/
theorem format_timestamp_c8_witness :
    (0 : ℚ) ≤ 65 ∧ format_timestamp 65 = format_timestamp_spec 65 :=
  ⟨by norm_num, format_timestamp_c8.1 65 (by norm_num)⟩

/-- Concrete rendering of 0 seconds. -/
theorem format_timestamp_zero : format_timestamp 0 = "0:00" := by
  rw [format_timestamp_eq_spec]
  simp only [format_timestamp_spec, specMod]
  norm_num
  decide

/-- Concrete rendering of 10 seconds. -/
theorem format_timestamp_ten : format_timestamp 10 = "0:10" := by
  rw [format_timestamp_eq_spec]
  simp only [format_timestamp_spec, specMod]
  norm_num
  decide

/-- The block loop never returns an empty list of blocks. -/
theorem blockLoop_ne_nil (t : ℚ) (rest : List Segment) :
    ∀ (prev : Segment) (acc : List Segment), blockLoop t prev acc rest ≠ [] := by
  induction rest with
  | nil => intro prev acc; simp [blockLoop]
  | cons curr rest ih =>
    intro prev acc
    by_cases h : curr.start - (prev.start + prev.duration) ≥ t
    · simp [blockLoop, h]
    · simpa [blockLoop, h] using ih curr (acc ++ [curr])

/-- Flattening the blocks restores the accumulator followed by the unvisited rest. -/
theorem blockLoop_flatten (t : ℚ) (rest : List Segment) :
    ∀ (prev : Segment) (acc : List Segment),
      (blockLoop t prev acc rest).flatten = acc ++ rest := by
  induction rest with
  | nil => intro prev acc; simp [blockLoop]
  | cons curr rest ih =>
    intro prev acc
    by_cases h : curr.start - (prev.start + prev.duration) ≥ t
    · simp [blockLoop, h, ih curr [curr]]
    · simp [blockLoop, h, ih curr (acc ++ [curr])]

/-- Every block the loop emits is non-empty when the open accumulator is. -/
theorem blockLoop_mem_ne_nil (t : ℚ) (rest : List Segment) :
    ∀ (prev : Segment) (acc : List Segment), acc ≠ [] →
      ∀ b ∈ blockLoop t prev acc rest, b ≠ [] := by
  induction rest with
  | nil => intro prev acc h; simp [blockLoop, h]
  | cons curr rest ih =>
    intro prev acc h
    by_cases hc : curr.start - (prev.start + prev.duration) ≥ t
    · intro b hb
      simp only [blockLoop, if_pos hc, List.mem_cons] at hb
      rcases hb with rfl | hb
      · exact h
      · exact ih curr [curr] (by simp) b hb
    · intro b hb
      simp only [blockLoop, if_neg hc] at hb
      exact ih curr (acc ++ [curr]) (by simp) b hb

/-- Appending one element does not change the default head of a non-empty list. -/
theorem headI_append_one (acc : List Segment) (x : Segment) (h : acc ≠ []) :
    (acc ++ [x]).headI = acc.headI := by
  cases acc with
  | nil => exact absurd rfl h
  | cons a as => rfl

/-- The group loop emits exactly the image of the block loop under mkGroup. -/
theorem groupLoop_eq_map (t : ℚ) (rest : List Segment) :
    ∀ (prev : Segment) (acc : List Segment), acc ≠ [] →
      groupLoop t prev acc.headI.start (acc.map Segment.text) rest =
        (blockLoop t prev acc rest).map mkGroup := by
  induction rest with
  | nil =>
    intro prev acc h
    simp [groupLoop, blockLoop, closeGroup, mkGroup]
  | cons curr rest ih =>
    intro prev acc h
    by_cases hc : curr.start - (prev.start + prev.duration) ≥ t
    · have h2 := ih curr [curr] (by simp)
      simp only [List.headI, List.map] at h2
      simp [groupLoop, blockLoop, hc, closeGroup, mkGroup, h2]
    · have h2 := ih curr (acc ++ [curr]) (by simp)
      rw [headI_append_one acc curr h, List.map_append] at h2
      simp only [groupLoop, blockLoop, if_neg hc]
      exact h2

/-- group_by_pauses is the image of its member-block decomposition under mkGroup. -/
theorem group_by_pauses_eq_blocks (segs : List Segment) (t : ℚ) :
    group_by_pauses segs t = (pauseBlocks segs t).map mkGroup := by
  cases segs with
  | nil => rfl
  | cons s rest =>
    have h := groupLoop_eq_map t rest s [s] (by simp)
    simpa [group_by_pauses, pauseBlocks] using h

/-- Flattening the member blocks restores the input. -/
theorem pauseBlocks_flatten (segs : List Segment) (t : ℚ) :
    (pauseBlocks segs t).flatten = segs := by
  cases segs with
  | nil => rfl
  | cons s rest => simpa [pauseBlocks] using blockLoop_flatten t rest s [s]

/-- Every member block is non-empty. -/
theorem pauseBlocks_mem_ne_nil (segs : List Segment) (t : ℚ) :
    ∀ b ∈ pauseBlocks segs t, b ≠ [] := by
  cases segs with
  | nil => simp [pauseBlocks]
  | cons s rest => exact blockLoop_mem_ne_nil t rest s [s] (by simp)

/-- C1: the blocks of pauseBlocks partition the input exactly (flattening them
restores the input, so no unit is dropped or duplicated), the sum of member counts
equals the input length, every block is non-empty, and group_by_pauses returns
exactly one group per block whose start and timestamp come from the block's first
member and whose text is the space-joined member texts in order. -/
theorem group_by_pauses_c1 (segs : List Segment) (t : ℚ) :
    (pauseBlocks segs t).flatten = segs ∧
    ((pauseBlocks segs t).map List.length).sum = segs.length ∧
    (∀ b ∈ pauseBlocks segs t, b ≠ []) ∧
    group_by_pauses segs t = (pauseBlocks segs t).map mkGroup := by
  refine ⟨pauseBlocks_flatten segs t, ?_, pauseBlocks_mem_ne_nil segs t,
    group_by_pauses_eq_blocks segs t⟩
  rw [← List.length_flatten, pauseBlocks_flatten segs t]

/-- Unfolding rule of joinSpace on a cons with non-empty tail. -/
theorem joinSpace_cons (x : String) (l : List String) (h : l ≠ []) :
    joinSpace (x :: l) = x ++ " " ++ joinSpace l := by
  cases l with
  | nil => exact absurd rfl h
  | cons y ys => rfl

/-- joinSpace distributes over append of non-empty lists with one space between. -/
theorem joinSpace_append (a b : List String) (ha : a ≠ []) (hb : b ≠ []) :
    joinSpace (a ++ b) = joinSpace a ++ " " ++ joinSpace b := by
  induction a with
  | nil => exact absurd rfl ha
  | cons x a ih =>
    cases a with
    | nil => simpa using joinSpace_cons x b hb
    | cons y a2 =>
      have h1 : (y :: a2) ++ b ≠ [] := by simp
      rw [List.cons_append, joinSpace_cons x ((y :: a2) ++ b) h1,
        joinSpace_cons x (y :: a2) (by simp), ih (by simp)]
      simp [String.append_assoc]

/-- Space-joining per-block joins equals the space-join of the flattened blocks,
provided every block is non-empty. -/
theorem joinSpace_flatten (bs : List (List String)) (h : ∀ b ∈ bs, b ≠ []) :
    joinSpace (bs.map joinSpace) = joinSpace bs.flatten := by
  induction bs with
  | nil => rfl
  | cons b rest ih =>
    cases rest with
    | nil => simp [joinSpace]
    | cons c rest2 =>
      have hb : b ≠ [] := h b (by simp)
      have hrest : ∀ x ∈ (c :: rest2), x ≠ [] := fun x hx => h x (by simp [hx])
      have hflat : c ++ rest2.flatten ≠ [] := by
        have hc : c ≠ [] := h c (by simp)
        cases c with
        | nil => exact absurd rfl hc
        | cons z zs => simp
      have e1 : (b :: c :: rest2).flatten = b ++ (c ++ rest2.flatten) := rfl
      have e2 : joinSpace ((c :: rest2).flatten) = joinSpace (c ++ rest2.flatten) := rfl
      rw [List.map_cons, joinSpace_cons (joinSpace b) ((c :: rest2).map joinSpace) (by simp),
        ih hrest, e2, e1, joinSpace_append b (c ++ rest2.flatten) hb hflat]

/-- C10: for every non-empty input and every threshold, space-joining the texts of
the groups reproduces the space-join of all unit texts in order, the fullText the
assembler builds directly from the units. -/
theorem group_by_pauses_c10 (segs : List Segment) (t : ℚ) (_h : segs ≠ []) :
    joinSpace ((group_by_pauses segs t).map Group.text) =
      joinSpace (segs.map Segment.text) := by
  rw [group_by_pauses_eq_blocks, List.map_map]
  have h1 : (Group.text ∘ mkGroup) = fun b => joinSpace (b.map Segment.text) := rfl
  rw [h1]
  have h2 : ((pauseBlocks segs t).map fun b => joinSpace (b.map Segment.text)) =
      ((pauseBlocks segs t).map (List.map Segment.text)).map joinSpace := by
    rw [List.map_map]
    rfl
  rw [h2]
  have h3 : ∀ b ∈ (pauseBlocks segs t).map (List.map Segment.text), b ≠ [] := by
    intro b hb
    rcases List.mem_map.mp hb with ⟨b0, hb0, rfl⟩
    have hb0ne := pauseBlocks_mem_ne_nil segs t b0 hb0
    cases b0 with
    | nil => exact absurd rfl hb0ne
    | cons z zs => simp
  rw [joinSpace_flatten _ h3, ← List.map_flatten, pauseBlocks_flatten segs t]

/-- Witness for C10 on a concrete two-unit input. -/
theorem group_by_pauses_c10_witness :
    ([⟨"a", 0, 1⟩, ⟨"b", 5, 1⟩] : List Segment) ≠ [] ∧
    joinSpace ((group_by_pauses [⟨"a", 0, 1⟩, ⟨"b", 5, 1⟩] 2).map Group.text) =
      joinSpace (([⟨"a", 0, 1⟩, ⟨"b", 5, 1⟩] : List Segment).map Segment.text) :=
  ⟨by simp, group_by_pauses_c10 [⟨"a", 0, 1⟩, ⟨"b", 5, 1⟩] 2 (by simp)⟩

/-- Prepending one more text to the open accumulator only changes the first
emitted group: it gets the new start and the prepended text. -/
theorem groupLoop_absorb (t : ℚ) (rest : List Segment) :
    ∀ (prev a : Segment) (texts : List String) (gS : ℚ), texts ≠ [] →
      groupLoop t prev a.start (a.text :: texts) rest =
        mergeFirst a (groupLoop t prev gS texts rest) := by
  induction rest with
  | nil =>
    intro prev a texts gS h
    simp [groupLoop, mergeFirst, closeGroup, joinSpace_cons a.text texts h]
  | cons curr rest ih =>
    intro prev a texts gS h
    by_cases hc : curr.start - (prev.start + prev.duration) ≥ t
    · simp [groupLoop, hc, mergeFirst, closeGroup, joinSpace_cons a.text texts h]
    · have h2 := ih curr a (texts ++ [curr.text]) gS (by simp)
      simp only [groupLoop, if_neg hc]
      rw [show (a.text :: texts) ++ [curr.text] = a.text :: (texts ++ [curr.text]) from rfl]
      exact h2

/-- C5: group_by_pauses splits exactly when the gap reaches the threshold — on a
cons of two units it emits the closed first group and recurses when the gap is at
least the threshold, and otherwise merges the first unit into the first group of
the recursive result; a negative gap never splits for a non-negative threshold;
the empty input yields the empty list, a single unit yields exactly one group, and
the three-unit example with threshold 2 yields the two claimed groups. -/
theorem group_by_pauses_c5 :
    (∀ t : ℚ, group_by_pauses [] t = []) ∧
    (∀ (a : Segment) (t : ℚ), group_by_pauses [a] t =
      [{ start := a.start, timestamp := format_timestamp a.start, text := a.text }]) ∧
    (∀ (a b : Segment) (rest : List Segment) (t : ℚ),
      group_by_pauses (a :: b :: rest) t =
        if b.start - (a.start + a.duration) ≥ t then
          { start := a.start, timestamp := format_timestamp a.start, text := a.text }
            :: group_by_pauses (b :: rest) t
        else mergeFirst a (group_by_pauses (b :: rest) t)) ∧
    (∀ (a b : Segment) (rest : List Segment) (t : ℚ), 0 ≤ t →
      b.start - (a.start + a.duration) < 0 →
      group_by_pauses (a :: b :: rest) t = mergeFirst a (group_by_pauses (b :: rest) t)) ∧
    group_by_pauses [⟨"a", 0, 1⟩, ⟨"b", 1, 1⟩, ⟨"c", 10, 1⟩] 2 =
      [⟨0, "0:00", "a b"⟩, ⟨10, "0:10", "c"⟩] := by
  have hsplit : ∀ (a b : Segment) (rest : List Segment) (t : ℚ),
      group_by_pauses (a :: b :: rest) t =
        if b.start - (a.start + a.duration) ≥ t then
          { start := a.start, timestamp := format_timestamp a.start, text := a.text }
            :: group_by_pauses (b :: rest) t
        else mergeFirst a (group_by_pauses (b :: rest) t) := by
    intro a b rest t
    by_cases hc : b.start - (a.start + a.duration) ≥ t
    · simp [group_by_pauses, groupLoop, hc, closeGroup, joinSpace]
    · simp only [group_by_pauses, groupLoop, if_neg hc, if_neg hc]
      exact groupLoop_absorb t rest b a [b.text] b.start (by simp)
  refine ⟨fun t => rfl, fun a t => rfl, hsplit, ?_, ?_⟩
  · intro a b rest t ht hneg
    rw [hsplit a b rest t, if_neg (by linarith)]
  · rw [hsplit]
    have hc1 : ¬((1 : ℚ) - (0 + 1) ≥ 2) := by norm_num
    rw [if_neg hc1, hsplit]
    have hc2 : ((10 : ℚ) - (1 + 1) ≥ 2) := by norm_num
    rw [if_pos hc2]
    simp only [group_by_pauses, groupLoop, closeGroup, joinSpace, mergeFirst,
      format_timestamp_zero, format_timestamp_ten]
    decide

/-- Witness for C5's negative-gap conjunct at overlapping concrete units. -/
theorem group_by_pauses_c5_witness :
    (0 : ℚ) ≤ 2 ∧ (⟨"y", 3, 1⟩ : Segment).start -
      ((⟨"x", 5, 1⟩ : Segment).start + (⟨"x", 5, 1⟩ : Segment).duration) < 0 ∧
    group_by_pauses [⟨"x", 5, 1⟩, ⟨"y", 3, 1⟩] 2 =
      mergeFirst ⟨"x", 5, 1⟩ (group_by_pauses [⟨"y", 3, 1⟩] 2) :=
  ⟨by norm_num, by norm_num,
    group_by_pauses_c5.2.2.2.1 ⟨"x", 5, 1⟩ ⟨"y", 3, 1⟩ [] 2 (by norm_num) (by norm_num)⟩

/-- C2: a provider that fails twice with rate-limit-signatured errors and then
succeeds, retried with a budget of 3, yields the success record after exactly two
rotation requests (one per rate-limited failure, none after the success) and three
provider calls. -/
theorem fetch_c2 (vid e1 e2 : String) (segs : List Segment)
    (h1 : isRateLimited e1 = true) (h2 : isRateLimited e2 = true) :
    fetch_transcript_via_tor vid
      (fun a => if a = 0 then Except.error e1
                else if a = 1 then Except.error e2 else Except.ok segs) 3 =
      { record := successRecord vid segs, rotations := 2, calls := 3 } := by
  simp [fetch_transcript_via_tor, fetchGo, h1, h2]

/-- Witness for C2 with the literal 429 marker. -/
theorem fetch_c2_witness :
    isRateLimited "429" = true ∧
    fetch_transcript_via_tor "v"
      (fun a => if a = 0 then Except.error "429"
                else if a = 1 then Except.error "429" else Except.ok []) 3 =
      { record := successRecord "v" [], rotations := 2, calls := 3 } :=
  ⟨by decide, fetch_c2 "v" "429" "429" [] (by decide) (by decide)⟩

/-- C3: when the first upstream call fails with an error that does not match the
rate-limit signature, the loop returns the failure record immediately after one
provider call and zero rotation requests, for every budget of at least one. -/
theorem fetch_c3 (vid msg : String) (provider : Nat → Except String (List Segment))
    (m : Nat) (hm : 1 ≤ m) (h0 : provider 0 = Except.error msg)
    (hr : isRateLimited msg = false) :
    fetch_transcript_via_tor vid provider m =
      { record := failureRecord vid msg, rotations := 0, calls := 1 } := by
  obtain ⟨k, rfl⟩ : ∃ k, m = k + 1 := ⟨m - 1, by omega⟩
  simp [fetch_transcript_via_tor, fetchGo, h0, hr]

/-- Witness for C3 with a captions-disabled style error and budget 5. -/
theorem fetch_c3_witness :
    (1 : Nat) ≤ 5 ∧ isRateLimited "captions disabled" = false ∧
    fetch_transcript_via_tor "v" (fun _ => Except.error "captions disabled") 5 =
      { record := failureRecord "v" "captions disabled", rotations := 0, calls := 1 } :=
  ⟨by decide, by decide,
    fetch_c3 "v" "captions disabled" (fun _ => Except.error "captions disabled") 5
      (by decide) rfl (by decide)⟩

/-- Every record the loop can return is a success record or a failure record. -/
theorem fetchGo_shape (vid : String) (provider : Nat → Except String (List Segment))
    (m : Nat) (fuel : Nat) :
    ∀ (attempt rot : Nat),
      (∃ segs, (fetchGo vid provider m fuel attempt rot).record = successRecord vid segs) ∨
      (∃ msg, (fetchGo vid provider m fuel attempt rot).record = failureRecord vid msg) := by
  induction fuel with
  | zero => intro attempt rot; exact Or.inr ⟨"All retries failed", rfl⟩
  | succ n ih =>
    intro attempt rot
    cases hp : provider attempt with
    | ok segs => exact Or.inl ⟨segs, by simp [fetchGo, hp]⟩
    | error msg =>
      by_cases hc : isRateLimited msg = true ∧ attempt < m - 1
      · simpa [fetchGo, hp, hc] using ih (attempt + 1) (rot + 1)
      · exact Or.inr ⟨msg, by simp [fetchGo, hp, hc]⟩

/-- C4: for every identifier, budget and provider behaviour, the loop returns a
record (in the embedding the loop is a total function: the Python body catches
every provider exception) that has exactly one of the success shape — no error
key, all payload keys present — and the error shape — error key present, no
payload keys: never both and never neither. -/
theorem fetch_c4 (vid : String) (provider : Nat → Except String (List Segment))
    (m : Nat) :
    exactlyOneShape (fetch_transcript_via_tor vid provider m).record := by
  rcases fetchGo_shape vid provider m m 0 0 with ⟨segs, hs⟩ | ⟨msg, hf⟩
  · rw [fetch_transcript_via_tor, hs]
    exact Or.inl (by simp [successRecord, successShape, errorShape])
  · rw [fetch_transcript_via_tor, hf]
    exact Or.inr (by simp [failureRecord, successShape, errorShape])

/-- With a positive budget, a returned failure record always carries the message
of the provider's last error: the post-loop fallback is unreachable. -/
theorem fetchGo_last_error (vid : String) (provider : Nat → Except String (List Segment))
    (m : Nat) (fuel : Nat) :
    ∀ (attempt rot : Nat) (e : String), fuel + attempt = m → 1 ≤ fuel →
      (fetchGo vid provider m fuel attempt rot).record = failureRecord vid e →
      provider ((fetchGo vid provider m fuel attempt rot).calls - 1) = Except.error e ∧
      attempt + 1 ≤ (fetchGo vid provider m fuel attempt rot).calls ∧
      (fetchGo vid provider m fuel attempt rot).calls ≤ m := by
  induction fuel with
  | zero => intro attempt rot e _ hfuel; omega
  | succ n ih =>
    intro attempt rot e hsum _ hrec
    cases hp : provider attempt with
    | ok segs =>
      rw [show fetchGo vid provider m (n + 1) attempt rot =
          { record := successRecord vid segs, rotations := rot, calls := attempt + 1 }
        from by simp [fetchGo, hp]] at hrec
      simp [successRecord, failureRecord] at hrec
    | error msg =>
      by_cases hc : isRateLimited msg = true ∧ attempt < m - 1
      · have hstep : fetchGo vid provider m (n + 1) attempt rot =
            fetchGo vid provider m n (attempt + 1) (rot + 1) := by
          simp [fetchGo, hp, hc]
        rw [hstep] at hrec ⊢
        have hres := ih (attempt + 1) (rot + 1) e (by omega) (by omega) hrec
        exact ⟨hres.1, by omega, hres.2.2⟩
      · have hstep : fetchGo vid provider m (n + 1) attempt rot =
            { record := failureRecord vid msg, rotations := rot, calls := attempt + 1 } := by
          simp [fetchGo, hp, hc]
        rw [hstep] at hrec ⊢
        have hmsg : msg = e := by simpa [failureRecord] using hrec
        subst hmsg
        refine ⟨by simpa using hp, le_refl _, ?_⟩
        show attempt + 1 ≤ m
        omega

/-- C6: with budget at least 1, a failure outcome always carries the message of the
last provider call's error — the generic fall-through message after the loop is
never the returned error — and with budget exactly 1 any first-call failure is
returned as the failure record with zero rotations after one call. -/
theorem fetch_c6 :
    (∀ (vid : String) (provider : Nat → Except String (List Segment)) (m : Nat)
      (e : String), 1 ≤ m →
      (fetch_transcript_via_tor vid provider m).record = failureRecord vid e →
      provider ((fetch_transcript_via_tor vid provider m).calls - 1) = Except.error e ∧
      1 ≤ (fetch_transcript_via_tor vid provider m).calls ∧
      (fetch_transcript_via_tor vid provider m).calls ≤ m) ∧
    (∀ (vid msg : String) (provider : Nat → Except String (List Segment)),
      provider 0 = Except.error msg →
      fetch_transcript_via_tor vid provider 1 =
        { record := failureRecord vid msg, rotations := 0, calls := 1 }) := by
  constructor
  · intro vid provider m e hm hrec
    simp only [fetch_transcript_via_tor] at hrec ⊢
    have hres := fetchGo_last_error vid provider m m 0 0 e (by omega) hm hrec
    have h21 := hres.2.1
    exact ⟨hres.1, by omega, hres.2.2⟩
  · intro vid msg provider h0
    have hc : ¬(isRateLimited msg = true ∧ 0 < 1 - 1) := by omega
    simp [fetch_transcript_via_tor, fetchGo, h0, hc]

/-- Witness for C6 with a failing provider and budget 1. -/
theorem fetch_c6_witness :
    (1 : Nat) ≤ 1 ∧
    (fetch_transcript_via_tor "v" (fun _ => Except.error "boom") 1).record =
      failureRecord "v" "boom" ∧
    (fun _ : Nat => (Except.error "boom" : Except String (List Segment)))
        ((fetch_transcript_via_tor "v" (fun _ => Except.error "boom") 1).calls - 1) =
      Except.error "boom" :=
  ⟨by decide, rfl,
    (fetch_c6.1 "v" (fun _ => Except.error "boom") 1 "boom" (by decide) rfl).1⟩

/-- A successful capture is exactly 11 characters of the id class. -/
theorem takeCapture_shape (cs g : List Char) (h : takeCapture cs = some g) :
    g.length = 11 ∧ g.all isIdChar = true := by
  unfold takeCapture at h
  by_cases hc : ((cs.take 11).length == 11 && (cs.take 11).all isIdChar) = true
  · rw [if_pos hc] at h
    cases h
    obtain ⟨h1, h2⟩ : ((cs.take 11).length == 11) = true ∧
        (cs.take 11).all isIdChar = true := by simpa using hc
    exact ⟨eq_of_beq h1, h2⟩
  · rw [if_neg hc] at h
    cases h

/-- Whatever alternative matches at a position, the capture has the claimed shape. -/
theorem tryAltsAt_shape (alts : List (List Char)) :
    ∀ (cs g : List Char), tryAltsAt alts cs = some g →
      g.length = 11 ∧ g.all isIdChar = true := by
  induction alts with
  | nil => intro cs g h; cases h
  | cons m rest ih =>
    intro cs g h
    unfold tryAltsAt at h
    by_cases hp : listPrefixOf m cs = true
    · rw [if_pos hp] at h
      cases hcap : takeCapture (cs.drop m.length) with
      | none => rw [hcap] at h; exact ih cs g h
      | some g2 =>
        rw [hcap] at h
        cases h
        exact takeCapture_shape _ _ hcap
    · rw [if_neg hp] at h
      cases hcap : takeCapture (cs.drop m.length) with
      | none => exact ih cs g h
      | some g2 => exact ih cs g h

/-- Whatever position the search succeeds at, the capture has the claimed shape. -/
theorem searchAlts_shape (alts : List (List Char)) (s : List Char) :
    ∀ g : List Char, searchAlts alts s = some g →
      g.length = 11 ∧ g.all isIdChar = true := by
  induction s with
  | nil => intro g h; cases h
  | cons c rest ih =>
    intro g h
    unfold searchAlts at h
    cases ht : tryAltsAt alts (c :: rest) with
    | some g2 =>
      rw [ht] at h
      cases h
      exact tryAltsAt_shape alts (c :: rest) g ht
    | none =>
      rw [ht] at h
      exact ih g h

/-- C7 as stated is FALSE at the concrete input of eleven letters a followed by a
newline: the anchored Python pattern also matches just before a final newline, so
extract_video_id returns the 12-character input unchanged. -/
theorem extract_c7_counterexample :
    ¬ (∀ s : List Char, idShapeClaimed s (extract_video_id s)) := by
  intro h
  have h12 := h ("aaaaaaaaaaa\n".data)
  have he : extract_video_id ("aaaaaaaaaaa\n".data) =
      Except.ok ("aaaaaaaaaaa\n".data) := rfl
  rw [he] at h12
  have hlen : ("aaaaaaaaaaa\n".data).length = 11 := h12.1
  exact absurd hlen (by decide)

/-- C7 amended: extract_video_id either returns exactly 11 characters of the class
[A-Za-z0-9_-], or — only in the pass-through case, because the end anchor of the
Python pattern also matches before one final newline — the 12-character input
consisting of a canonical id plus a trailing newline, or fails carrying the
original input. -/
theorem extract_c7_amended (s : List Char) : idShapeAmended s (extract_video_id s) := by
  unfold extract_video_id
  by_cases hm : matchCanonical s = true
  · rw [if_pos hm]
    unfold matchCanonical at hm
    have hm2 : ((s.length == 11) = true ∧ s.all isIdChar = true) ∨
        ((s.length == 12) = true ∧ (s.take 11).all isIdChar = true ∧
          (s.getLast? == some '\n') = true) := by
      rcases Bool.or_eq_true_iff.mp hm with h1 | h2
      · exact Or.inl (by simpa using h1)
      · right
        obtain ⟨h3, hlast⟩ : ((s.length == 12) && (s.take 11).all isIdChar) = true ∧
            (s.getLast? == some '\n') = true := by simpa using h2
        obtain ⟨hl, ha⟩ : (s.length == 12) = true ∧ (s.take 11).all isIdChar = true := by
          simpa using h3
        exact ⟨hl, ha, hlast⟩
    rcases hm2 with ⟨hl, ha⟩ | ⟨hl, ha, hlast⟩
    · exact Or.inl ⟨eq_of_beq hl, ha⟩
    · exact Or.inr ⟨rfl, eq_of_beq hl, ha, eq_of_beq hlast⟩
  · rw [if_neg hm]
    cases h1 : searchAlts pat1 s with
    | some g => exact Or.inl (searchAlts_shape pat1 s g h1)
    | none =>
      cases h2 : searchAlts pat2 s with
      | some g => exact Or.inl (searchAlts_shape pat2 s g h2)
      | none =>
        cases h3 : searchAlts pat3 s with
        | some g => exact Or.inl (searchAlts_shape pat3 s g h3)
        | none => rfl

/-- C9 as stated is FALSE: a well-formed invocation (argument present) whose
reference is invalid makes main print the error payload and exit 1, because the
ValueError handler of main calls sys.exit(1). -/
theorem pymain_c9_counterexample :
    ¬ (∀ (argv : List String) (oracle : String → GetOutcome),
        2 ≤ argv.length → (pymain argv oracle).1 = 0) := by
  intro h
  have h1 := h ["transcript.py", "not a valid ref"] (fun _ => GetOutcome.err "e") (by decide)
  exact absurd h1 (by decide)

/-- C9 amended: the CLI exits 0 exactly when an argument is present and the
reference resolves (the emitted JSON may still be a retrieval-error payload); it
exits 1 when the argument is missing and also — against the claim — when the
reference is invalid, in which case the emitted document is the InvalidReference
error payload. -/
theorem pymain_c9_amended (argv : List String) (oracle : String → GetOutcome) :
    ((pymain argv oracle).1 = 0 ↔
      2 ≤ argv.length ∧ ∃ vid, extract_video_id (argv.getD 1 "").data = Except.ok vid) ∧
    ((pymain argv oracle).1 = 0 ∨ (pymain argv oracle).1 = 1) ∧
    (∀ e : List Char, 2 ≤ argv.length →
      extract_video_id (argv.getD 1 "").data = Except.error e →
      pymain argv oracle = (1, MainOutput.invalidRef e)) := by
  by_cases hlen : argv.length < 2
  · have hp : pymain argv oracle = (1, MainOutput.usageError) := by
      simp [pymain, hlen]
    rw [hp]
    refine ⟨?_, Or.inr rfl, ?_⟩
    · simp only [Prod.fst]
      constructor
      · intro h10; cases h10
      · intro hand; omega
    · intro e h2 _; omega
  · cases hext : extract_video_id (argv.getD 1 "").data with
    | error e0 =>
      have hp : pymain argv oracle = (1, MainOutput.invalidRef e0) := by
        unfold pymain
        rw [if_neg hlen, hext]
      rw [hp]
      refine ⟨?_, Or.inr rfl, ?_⟩
      · constructor
        · intro h10; simp at h10
        · rintro ⟨_, vid, hvid⟩
          cases hvid
      · intro e _ he
        cases he
        rfl
    | ok vid0 =>
      have hp : (pymain argv oracle).1 = 0 := by
        unfold pymain
        rw [if_neg hlen, hext]
      refine ⟨?_, Or.inl hp, ?_⟩
      · rw [hp]
        exact ⟨fun _ => ⟨by omega, vid0, rfl⟩, fun _ => rfl⟩
      · intro e _ he
        exact Except.noConfusion he

/-- Witness for C9 amended on a concrete invalid reference. -/
theorem pymain_c9_witness :
    2 ≤ (["transcript.py", "not a valid ref"] : List String).length ∧
    pymain ["transcript.py", "not a valid ref"] (fun _ => GetOutcome.err "boom") =
      (1, MainOutput.invalidRef ("not a valid ref".data)) :=
  ⟨by decide,
    (pymain_c9_amended ["transcript.py", "not a valid ref"]
      (fun _ => GetOutcome.err "boom")).2.2 ("not a valid ref".data) (by decide) rfl⟩

end Transcript
